import Mathlib

/-!
Shallow embedding of `analizador_de_Redes.py`: a small HTTP relay that
fetches a remote text resource, parses each non-blank line as a
comma/quoted-field record of Wi-Fi scan data, and serves the records as
JSON.  Strings are modelled as `List Char` (wrapped into `String` at the
record boundary); the network fetch is modelled as an `Except`-valued
input to the request handler.
-/

deriving instance DecidableEq for Except

namespace WifiRelay

/-- Characters treated as whitespace by Python `str.strip()` (the ASCII
whitespace set; non-ASCII Unicode whitespace is not modelled). -/
def pyIsSpace (c : Char) : Bool :=
  c == ' ' || c == '\t' || c == '\n' || c == '\r' || c == '\x0b' || c == '\x0c'

/-- Drop the characters satisfying `p` from both ends of a list; this is
Python `str.strip(chars)` on a character list. -/
def dropEnds (p : Char → Bool) (l : List Char) : List Char :=
  ((l.dropWhile p).reverse.dropWhile p).reverse

/-- Python `str.strip()` (default whitespace stripping). -/
def pyStripWs (l : List Char) : List Char := dropEnds pyIsSpace l

/-- Python `str.strip('"')`. -/
def pyStripQuotes (l : List Char) : List Char := dropEnds (fun c => c == '"') l

/-- Maximal prefix of characters that are neither `,` nor `"`, together
with the remaining suffix: the greedy match of the regex alternative
`[^,"]+` (possibly empty here; callers supply the first character). -/
def takePlain : List Char → List Char × List Char
  | [] => ([], [])
  | c :: cs =>
    if c = ',' ∨ c = '"' then ([], c :: cs)
    else
      let p := takePlain cs
      (c :: p.1, p.2)

/-- Scan for the first `"`; on success return the characters before it and
the characters after it.  This is the greedy match of `[^"]*"` after an
opening quote. -/
def breakOnQuote : List Char → Option (List Char × List Char)
  | [] => none
  | c :: cs =>
    if c = '"' then some ([], cs)
    else
      match breakOnQuote cs with
      | none => none
      | some p => some (c :: p.1, p.2)

/-- Fuelled scanner for `re.findall(r'([^,"]+|"[^"]*")', line)`: at each
position try a nonempty plain run, else a double-quoted span; if neither
matches (a comma, or an opening quote with no closing quote) advance one
character.  The fuel only serves to make the recursion structural; any
fuel at least the length of the input gives the same result. -/
def findTokensF : Nat → List Char → List (List Char)
  | 0, _ => []
  | _ + 1, [] => []
  | fuel + 1, c :: cs =>
    if c = ',' then findTokensF fuel cs
    else if c = '"' then
      match breakOnQuote cs with
      | some p => ('"' :: p.1 ++ ['"']) :: findTokensF fuel p.2
      | none => findTokensF fuel cs
    else (c :: (takePlain cs).1) :: findTokensF fuel (takePlain cs).2

/-- `re.findall(r'([^,"]+|"[^"]*")', line)` from `_parse_wifi_line`. -/
def findTokens (l : List Char) : List (List Char) := findTokensF l.length l

/-- One token's cleaning: `field.strip('"').strip()`. -/
def cleanField (t : List Char) : List Char := pyStripWs (pyStripQuotes t)

/-- `[field.strip('"').strip() for field in fields if field.strip()]`:
keep only the raw tokens whose whitespace-strip is nonempty, then strip
quotes and whitespace from each. -/
def cleanedFields (line : List Char) : List (List Char) :=
  ((findTokens line).filter (fun t => !(pyStripWs t).isEmpty)).map cleanField

/-- ASCII decimal digit test. -/
def isDigit (c : Char) : Bool := '0' ≤ c && c ≤ '9'

/-- Value of a digit run, most significant first. -/
def digitsVal (l : List Char) : Nat :=
  l.foldl (fun n c => 10 * n + (c.toNat - '0'.toNat)) 0

/-- Python `repr` of a short string as it appears inside `ValueError`
messages (escaping of exotic characters is not modelled). -/
def pyRepr (s : List Char) : String := String.mk ('\'' :: (s ++ ['\'']))

/-- The exact decimal value `m / 10 ^ e`, the model used for the values of
Python floats parsed from decimal literals.  Values are kept canonical:
either `e = 0` or `m` is not divisible by `10`.  The binary rounding of
IEEE doubles is not modelled (all inputs in this data are short decimals). -/
structure DecFloat where
  m : ℤ
  e : ℕ
deriving DecidableEq

/-- Canonicalise `m / 10 ^ e` by removing common factors of ten. -/
def normDecF : ℤ → ℕ → DecFloat
  | m, 0 => ⟨m, 0⟩
  | m, e + 1 => if m % 10 = 0 then normDecF (m / 10) e else ⟨m, e + 1⟩

/-- The decimal value of an integer. -/
def DecFloat.ofInt (n : ℤ) : DecFloat := ⟨n, 0⟩

/-- Models Python `float()` on decimal literals: optional surrounding
whitespace, an optional sign, then digits with an optional fractional part
(`"12"`, `"12."`, `".5"`, `"3.25"`).  Exponent forms, `inf`/`nan` and
underscore separators are not modelled (no caller in this program feeds
them).  A failed conversion carries the `ValueError` message. -/
def pyFloat (s : List Char) : Except String DecFloat :=
  let t := pyStripWs s
  let su : ℤ × List Char :=
    match t with
    | '+' :: r => (1, r)
    | '-' :: r => (-1, r)
    | r => (1, r)
  let ip := su.2.takeWhile isDigit
  let rest := su.2.dropWhile isDigit
  match rest with
  | [] =>
    if ip.isEmpty then .error ("could not convert string to float: " ++ pyRepr s)
    else .ok (DecFloat.ofInt (su.1 * (digitsVal ip : ℤ)))
  | '.' :: fp =>
    if fp.all isDigit && !(ip.isEmpty && fp.isEmpty) then
      .ok (normDecF (su.1 * ((digitsVal ip * 10 ^ fp.length + digitsVal fp : ℕ) : ℤ)) fp.length)
    else .error ("could not convert string to float: " ++ pyRepr s)
  | _ => .error ("could not convert string to float: " ++ pyRepr s)

/-- Models Python `int()` on base-10 literals: optional surrounding
whitespace, an optional sign, then a nonempty digit run (underscore
separators are not modelled). -/
def pyInt (s : List Char) : Except String ℤ :=
  let t := pyStripWs s
  let su : ℤ × List Char :=
    match t with
    | '+' :: r => (1, r)
    | '-' :: r => (-1, r)
    | r => (1, r)
  if !su.2.isEmpty && su.2.all isDigit then .ok (su.1 * (digitsVal su.2 : ℤ))
  else .error ("invalid literal for int() with base 10: " ++ pyRepr s)

/-- The 15-attribute record built by `_parse_wifi_line` (the Python dict
always carries exactly these keys, in this order). -/
structure WiFiNetworkRecord where
  bss : String
  tsf : String
  freq : DecFloat
  beacon : ℤ
  capa : String
  signal : DecFloat
  ssid : String
  ht_capa : String
  primary_channel : ℤ
  vht_capa : String
  he_capa : String
  he_phy_capa : String
  encryption : String
  cipher : String
  suite : String
deriving DecidableEq

/-- `cleaned_fields[i] if len(cleaned_fields) > i else default` for the
string-valued positions. -/
def strFieldD (fs : List (List Char)) (i : Nat) (d : String) : String :=
  match fs[i]? with
  | some f => String.mk f
  | none => d

/-- `conv(cleaned_fields[i]) if len(cleaned_fields) > i and
cleaned_fields[i] else default` for the numeric positions: an absent or
empty token yields the default, a present nonempty token is converted
(and the conversion may raise). -/
def numFieldD {α : Type} (fs : List (List Char)) (i : Nat)
    (p : List Char → Except String α) (d : α) : Except String α :=
  match fs[i]? with
  | none => .ok d
  | some f => if f.isEmpty then .ok d else p f

/-- The positional field mapping of `_parse_wifi_line` applied to the
cleaned token list.  The numeric conversions are evaluated in the order
the Python dict literal evaluates them (freq, beacon, signal,
primary_channel), so the first failing conversion determines the error. -/
def parse_fields (fs : List (List Char)) : Except String WiFiNetworkRecord :=
  match numFieldD fs 2 pyFloat (DecFloat.ofInt 0) with
  | .error e => .error e
  | .ok freqv =>
    match numFieldD fs 3 pyInt 0 with
    | .error e => .error e
    | .ok beaconv =>
      match numFieldD fs 5 pyFloat (DecFloat.ofInt 0) with
      | .error e => .error e
      | .ok signalv =>
        match numFieldD fs 8 pyInt 0 with
        | .error e => .error e
        | .ok pcv =>
          .ok
            { bss := strFieldD fs 0 ""
              tsf := strFieldD fs 1 ""
              freq := freqv
              beacon := beaconv
              capa := strFieldD fs 4 "0x0"
              signal := signalv
              ssid := strFieldD fs 6 ""
              ht_capa := strFieldD fs 7 "0x0"
              primary_channel := pcv
              vht_capa := strFieldD fs 9 "0x0"
              he_capa := strFieldD fs 10 "0x0"
              he_phy_capa := strFieldD fs 11 ""
              encryption := strFieldD fs 12 ""
              cipher := strFieldD fs 13 ""
              suite := strFieldD fs 14 "" }

/-- `WiFiDataHandler._parse_wifi_line`: tokenize, clean, then map the
cleaned fields positionally.  An `error` value models the `ValueError`
raised by a failing numeric conversion. -/
def parse_wifi_line (line : List Char) : Except String WiFiNetworkRecord :=
  parse_fields (cleanedFields line)

/-- Python `str.split('\n')` on a character list (`''.split('\n') == ['']`). -/
def splitNl : List Char → List (List Char)
  | [] => [[]]
  | c :: cs =>
    match splitNl cs with
    | [] => [[]]
    | t :: ts => if c = '\n' then [] :: t :: ts else (c :: t) :: ts

/-- The lines of a text that survive the `if not line.strip(): continue`
guard, in order. -/
def nonblankLines (content : List Char) : List (List Char) :=
  (splitNl content).filter (fun l => !(pyStripWs l).isEmpty)

/-- The accumulation loop of `_parse_wifi_content` over a list of lines:
parse each line in order, stopping at the first raised error.  (The
`if network:` guard in the source always passes, because the parsed dict
always has 15 keys and nonempty dicts are truthy.) -/
def parseLines : List (List Char) → Except String (List WiFiNetworkRecord)
  | [] => .ok []
  | l :: ls =>
    match parse_wifi_line l with
    | .error e => .error e
    | .ok r =>
      match parseLines ls with
      | .error e => .error e
      | .ok rs => .ok (r :: rs)

/-- `WiFiDataHandler._parse_wifi_content`: strip the whole text, split on
newlines, skip blank lines, parse the rest in order. -/
def parse_wifi_content (content : List Char) : Except String (List WiFiNetworkRecord) :=
  parseLines (nonblankLines (pyStripWs content))

/-- An HTTP response as the handler produces it: status code, the headers
it explicitly sends (in order), and the body text (written UTF-8 encoded).
Transport-level headers added by the underlying server library are not
modelled. -/
structure HttpResponse where
  status : Nat
  headers : List (String × String)
  body : String
deriving DecidableEq

/-- Lower-case hexadecimal digit. -/
def hexDigitChar (n : Nat) : Char :=
  if n < 10 then Char.ofNat ('0'.toNat + n) else Char.ofNat ('a'.toNat + (n - 10))

/-- Four lower-case hex digits. -/
def hex4 (n : Nat) : String :=
  String.mk [hexDigitChar (n / 4096 % 16), hexDigitChar (n / 256 % 16),
    hexDigitChar (n / 16 % 16), hexDigitChar (n % 16)]

/-- JSON string escaping as Python `json.dumps` performs it with the
default `ensure_ascii=True`: printable ASCII passes through, the short
escapes are used where they exist, every other character becomes a
`\uXXXX` escape (characters beyond the BMP, which Python renders as
surrogate pairs, are not modelled). -/
def jsonEscapeChar (c : Char) : String :=
  if c = '"' then "\\\""
  else if c = '\\' then "\\\\"
  else if c = '\n' then "\\n"
  else if c = '\t' then "\\t"
  else if c = '\r' then "\\r"
  else if c = '\x08' then "\\b"
  else if c = '\x0c' then "\\f"
  else if 0x20 ≤ c.toNat ∧ c.toNat ≤ 0x7e then String.mk [c]
  else "\\u" ++ hex4 c.toNat

/-- A JSON string literal for `s`. -/
def jsonQuote (s : String) : String :=
  "\"" ++ String.join (s.data.map jsonEscapeChar) ++ "\""

/-- Count of factors `p` in `n` (fuelled; enough fuel for any `n`). -/
def factorCountF : Nat → Nat → Nat → Nat
  | 0, _, _ => 0
  | fuel + 1, p, n => if 2 ≤ p ∧ n ≠ 0 ∧ n % p = 0 then factorCountF fuel p (n / p) + 1 else 0

/-- Count of factors `p` in `n`. -/
def factorCount (p n : Nat) : Nat := factorCountF n p n

/-- Left-pad with zeros to `k` characters. -/
def padLeftZeros (s : String) (k : Nat) : String :=
  String.mk (List.replicate (k - s.length) '0') ++ s

/-- `repr` of a Python float holding an exact decimal value, as
`json.dumps` renders numbers: integral values get a trailing `.0`, other
values their minimal decimal expansion. -/
def floatRepr (d : DecFloat) : String :=
  if d.e = 0 then toString d.m ++ ".0"
  else
    let n := d.m.natAbs
    let sgn := if d.m < 0 then "-" else ""
    sgn ++ toString (n / 10 ^ d.e) ++ "." ++ padLeftZeros (toString (n % 10 ^ d.e)) d.e

/-- The key/value pairs of one record's JSON object, in the dict order of
the source. -/
def recordPairs (r : WiFiNetworkRecord) : List (String × String) :=
  [("bss", jsonQuote r.bss), ("tsf", jsonQuote r.tsf), ("freq", floatRepr r.freq),
    ("beacon", toString r.beacon), ("capa", jsonQuote r.capa),
    ("signal", floatRepr r.signal), ("ssid", jsonQuote r.ssid),
    ("ht_capa", jsonQuote r.ht_capa), ("primary_channel", toString r.primary_channel),
    ("vht_capa", jsonQuote r.vht_capa), ("he_capa", jsonQuote r.he_capa),
    ("he_phy_capa", jsonQuote r.he_phy_capa), ("encryption", jsonQuote r.encryption),
    ("cipher", jsonQuote r.cipher), ("suite", jsonQuote r.suite)]

/-- One record as `json.dumps` renders it at depth 1 with `indent=2`. -/
def recordJsonIndent2 (r : WiFiNetworkRecord) : String :=
  "\x7b\n" ++
    String.intercalate ",\n"
      ((recordPairs r).map (fun p => "    " ++ jsonQuote p.1 ++ ": " ++ p.2)) ++
    "\n  \x7d"

/-- `json.dumps(records, indent=2)`: the pretty-printed JSON array body of
a successful response. -/
def jsonDumpsIndent2 (rs : List WiFiNetworkRecord) : String :=
  match rs with
  | [] => "[]"
  | _ => "[\n" ++ String.intercalate ",\n" (rs.map (fun r => "  " ++ recordJsonIndent2 r)) ++ "\n]"

/-- `WiFiDataHandler._serve_error`: status 500 with the compact JSON body
`json.dumps({"error": message})`. -/
def serve_error (message : String) : HttpResponse :=
  { status := 500
    headers := [("Content-Type", "application/json; charset=utf-8")]
    body := "\x7b\"error\": " ++ jsonQuote message ++ "\x7d" }

/-- `WiFiDataHandler._serve_404`. -/
def serve_404 : HttpResponse :=
  { status := 404
    headers := [("Content-Type", "text/plain; charset=utf-8")]
    body := "Ruta no encontrada. Use /air para obtener datos Wi-Fi." }

/-- `WiFiDataHandler._fetch_and_parse_wifi_data`, with the network I/O of
`urllib.request.urlopen` abstracted as an `Except`-valued input: an
`error` carries the description of a fetch/decode failure, an `ok`
carries the decoded UTF-8 text. -/
def fetch_and_parse (fetchResult : Except String String) :
    Except String (List WiFiNetworkRecord) :=
  match fetchResult with
  | .error e => .error e
  | .ok content => parse_wifi_content content.data

/-- `WiFiDataHandler._serve_wifi_data`: on success a 200 JSON response
with the CORS header, on any fetch/parse failure the 500 error response
with the prefixed message. -/
def serve_wifi_data (fetchResult : Except String String) : HttpResponse :=
  match fetch_and_parse fetchResult with
  | .ok data =>
    { status := 200
      headers := [("Content-Type", "application/json; charset=utf-8"),
        ("Access-Control-Allow-Origin", "*")]
      body := jsonDumpsIndent2 data }
  | .error e => serve_error ("Error procesando datos: " ++ e)

/-- `WiFiDataHandler.do_GET`: route on the exact request path. -/
def do_GET (fetchResult : Except String String) (path : String) : HttpResponse :=
  if path = "/air" then serve_wifi_data fetchResult else serve_404

/-! ### Basic facts about the tokenizer -/

theorem takePlain_snd_length (l : List Char) : (takePlain l).2.length ≤ l.length := by
  induction l with
  | nil => simp [takePlain]
  | cons c cs ih =>
    by_cases h : c = ',' ∨ c = '"'
    · simp [takePlain, h]
    · simp only [takePlain, if_neg h]
      exact Nat.le_succ_of_le ih

theorem takePlain_mem_fst {l : List Char} {x : Char} (h : x ∈ (takePlain l).1) :
    ¬x = ',' ∧ ¬x = '"' := by
  induction l with
  | nil => simp [takePlain] at h
  | cons c cs ih =>
    by_cases hcq : c = ',' ∨ c = '"'
    · simp [takePlain, hcq] at h
    · simp only [takePlain, if_neg hcq, List.mem_cons] at h
      push_neg at hcq
      rcases h with rfl | h
      · exact hcq
      · exact ih h

theorem takePlain_eq_of_plain {l : List Char} (h : ∀ x ∈ l, ¬x = ',' ∧ ¬x = '"') :
    takePlain l = (l, []) := by
  induction l with
  | nil => simp [takePlain]
  | cons c cs ih =>
    have hc := h c (by simp)
    have ih2 := ih (fun x hx => h x (by simp [hx]))
    simp only [takePlain, if_neg (by tauto : ¬(c = ',' ∨ c = '"')), ih2]

theorem takePlain_plain_append {a : List Char} (d : Char) (r : List Char)
    (ha : ∀ x ∈ a, ¬x = ',' ∧ ¬x = '"') (hd : d = ',' ∨ d = '"') :
    takePlain (a ++ d :: r) = (a, d :: r) := by
  induction a with
  | nil => simp [takePlain, if_pos hd]
  | cons c cs ih =>
    have hc := ha c (by simp)
    have ih2 := ih (fun x hx => ha x (by simp [hx]))
    simp only [List.cons_append, takePlain, if_neg (by tauto : ¬(c = ',' ∨ c = '"')),
      List.append_eq]
    rw [ih2]

theorem takePlain_append_single {l : List Char} {c : Char}
    (hc : ¬(c = ',' ∨ c = '"')) :
    takePlain (l ++ [c]) =
      if (takePlain l).2 = [] then ((takePlain l).1 ++ [c], [])
      else ((takePlain l).1, (takePlain l).2 ++ [c]) := by
  induction l with
  | nil => simp [takePlain, if_neg hc]
  | cons d ds ih =>
    by_cases hd : d = ',' ∨ d = '"'
    · simp [takePlain, if_pos hd]
    · simp only [List.cons_append, takePlain, if_neg hd, List.append_eq]
      rw [ih]
      by_cases h2 : (takePlain ds).2 = [] <;> simp [h2]

theorem breakOnQuote_some_spec {l : List Char} {p : List Char × List Char}
    (h : breakOnQuote l = some p) : l = p.1 ++ '"' :: p.2 ∧ '"' ∉ p.1 := by
  induction l generalizing p with
  | nil => simp [breakOnQuote] at h
  | cons c cs ih =>
    by_cases hc : c = '"'
    · subst hc
      have h2 : some (([] : List Char), cs) = some p := h
      injection h2 with h3
      subst h3
      simp
    · simp only [breakOnQuote, if_neg hc] at h
      cases hb : breakOnQuote cs with
      | none => rw [hb] at h; simp at h
      | some q =>
        rw [hb] at h
        simp only [Option.some.injEq] at h
        subst h
        obtain ⟨hq1, hq2⟩ := ih hb
        refine ⟨by simp [hq1], ?_⟩
        simp only [List.mem_cons, not_or]
        exact ⟨fun hx => hc hx.symm, hq2⟩

theorem breakOnQuote_snd_length {l : List Char} {p : List Char × List Char}
    (h : breakOnQuote l = some p) : p.2.length < l.length := by
  have hspec := (breakOnQuote_some_spec h).1
  rw [hspec]
  simp only [List.length_append, List.length_cons]
  omega

theorem breakOnQuote_eq_none_iff {l : List Char} : breakOnQuote l = none ↔ '"' ∉ l := by
  induction l with
  | nil => simp [breakOnQuote]
  | cons c cs ih =>
    by_cases hc : c = '"'
    · subst hc
      simp [breakOnQuote]
    · simp only [breakOnQuote, if_neg hc]
      cases hb : breakOnQuote cs with
      | none =>
        simp only [List.mem_cons, not_or]
        constructor
        · intro _
          exact ⟨fun hx => hc hx.symm, ih.mp hb⟩
        · intro _
          trivial
      | some p =>
        have hmem : '"' ∈ cs := by
          rw [(breakOnQuote_some_spec hb).1]
          simp
        simp [hmem]

theorem breakOnQuote_append_single {l : List Char} {c : Char} (hc : ¬c = '"') :
    breakOnQuote (l ++ [c]) = (breakOnQuote l).map (fun p => (p.1, p.2 ++ [c])) := by
  induction l with
  | nil => simp [breakOnQuote, if_neg hc]
  | cons d ds ih =>
    by_cases hd : d = '"'
    · subst hd
      simp [breakOnQuote]
    · simp only [List.cons_append, breakOnQuote, if_neg hd, List.append_eq]
      rw [ih]
      cases breakOnQuote ds <;> simp

theorem findTokensF_irrel :
    ∀ (f1 f2 : Nat) (l : List Char), l.length ≤ f1 → l.length ≤ f2 →
      findTokensF f1 l = findTokensF f2 l := by
  intro f1
  induction f1 with
  | zero =>
    intro f2 l h1 _
    have hl : l = [] := List.length_eq_zero.mp (Nat.le_zero.mp h1)
    subst hl
    cases f2 <;> simp [findTokensF]
  | succ n ih =>
    intro f2 l h1 h2
    cases l with
    | nil => cases f2 <;> simp [findTokensF]
    | cons c cs =>
      cases f2 with
      | zero => simp at h2
      | succ m =>
        simp only [List.length_cons, Nat.succ_le_succ_iff] at h1 h2
        show (if c = ',' then findTokensF n cs
            else if c = '"' then
              match breakOnQuote cs with
              | some p => ('"' :: p.1 ++ ['"']) :: findTokensF n p.2
              | none => findTokensF n cs
            else (c :: (takePlain cs).1) :: findTokensF n (takePlain cs).2) =
          (if c = ',' then findTokensF m cs
            else if c = '"' then
              match breakOnQuote cs with
              | some p => ('"' :: p.1 ++ ['"']) :: findTokensF m p.2
              | none => findTokensF m cs
            else (c :: (takePlain cs).1) :: findTokensF m (takePlain cs).2)
        by_cases hcomma : c = ','
        · rw [if_pos hcomma, if_pos hcomma]
          exact ih m cs h1 h2
        · rw [if_neg hcomma, if_neg hcomma]
          by_cases hquote : c = '"'
          · rw [if_pos hquote, if_pos hquote]
            cases hb : breakOnQuote cs with
            | none => exact ih m cs h1 h2
            | some p =>
              have hlen : p.2.length ≤ cs.length := Nat.le_of_lt (breakOnQuote_snd_length hb)
              exact congrArg _ (ih m p.2 (le_trans hlen h1) (le_trans hlen h2))
          · rw [if_neg hquote, if_neg hquote]
            have hlen := takePlain_snd_length cs
            exact congrArg _ (ih m (takePlain cs).2 (le_trans hlen h1) (le_trans hlen h2))

theorem findTokens_nil : findTokens [] = [] := rfl

theorem findTokens_comma (cs : List Char) : findTokens (',' :: cs) = findTokens cs := by
  show findTokensF (cs.length + 1) (',' :: cs) = findTokensF cs.length cs
  rw [findTokensF, if_pos rfl]

theorem findTokens_quote (cs : List Char) :
    findTokens ('"' :: cs) =
      match breakOnQuote cs with
      | some p => ('"' :: p.1 ++ ['"']) :: findTokens p.2
      | none => findTokens cs := by
  show findTokensF (cs.length + 1) ('"' :: cs) = _
  rw [findTokensF]
  rw [if_neg (by decide : ¬('"' : Char) = ','), if_pos rfl]
  cases hb : breakOnQuote cs with
  | none => rfl
  | some p =>
    have hlen : p.2.length ≤ cs.length := Nat.le_of_lt (breakOnQuote_snd_length hb)
    exact congrArg _ (findTokensF_irrel cs.length p.2.length p.2 hlen le_rfl)

theorem findTokens_plain {c : Char} (cs : List Char) (h1 : ¬c = ',') (h2 : ¬c = '"') :
    findTokens (c :: cs) = (c :: (takePlain cs).1) :: findTokens (takePlain cs).2 := by
  show findTokensF (cs.length + 1) (c :: cs) = _
  rw [findTokensF, if_neg h1, if_neg h2]
  exact congrArg _ (findTokensF_irrel cs.length _ _ (takePlain_snd_length cs) le_rfl)

/-! ### Basic facts about stripping -/

theorem dropWhile_eq_self_of_all_neg {p : Char → Bool} {l : List Char}
    (h : ∀ x ∈ l, ¬p x = true) : l.dropWhile p = l := by
  cases l with
  | nil => rfl
  | cons c cs => exact List.dropWhile_cons_of_neg (h c (by simp))

theorem dropEnds_cons_of_pos {p : Char → Bool} {c : Char} (h : p c = true) (l : List Char) :
    dropEnds p (c :: l) = dropEnds p l := by
  simp [dropEnds, List.dropWhile_cons, h]

theorem dropEnds_append_of_pos {p : Char → Bool} {c : Char} (h : p c = true) (l : List Char) :
    dropEnds p (l ++ [c]) = dropEnds p l := by
  rw [dropEnds, dropEnds, List.dropWhile_append]
  split
  · rename_i he
    rw [List.isEmpty_iff] at he
    rw [he]
    simp [List.dropWhile_cons, h]
  · rw [List.reverse_append]
    simp [List.dropWhile_cons, h]

theorem dropEnds_eq_self_of_all_neg {p : Char → Bool} {l : List Char}
    (h : ∀ x ∈ l, ¬p x = true) : dropEnds p l = l := by
  rw [dropEnds, dropWhile_eq_self_of_all_neg h,
    dropWhile_eq_self_of_all_neg (fun x hx => h x (List.mem_reverse.mp hx)),
    List.reverse_reverse]

theorem mem_dropEnds {p : Char → Bool} {l : List Char} {x : Char}
    (h : x ∈ dropEnds p l) : x ∈ l := by
  rw [dropEnds, List.mem_reverse] at h
  have h2 := (List.dropWhile_sublist (l := (l.dropWhile p).reverse) p).mem h
  rw [List.mem_reverse] at h2
  exact (List.dropWhile_sublist (l := l) p).mem h2

theorem dropEnds_eq_nil_iff {p : Char → Bool} {l : List Char} :
    dropEnds p l = [] ↔ ∀ x ∈ l, p x = true := by
  constructor
  · intro h x hx
    rw [dropEnds, List.reverse_eq_nil_iff] at h
    have h2 : ∀ y ∈ l.dropWhile p, p y = true := fun y hy =>
      List.dropWhile_eq_nil_iff.mp h y (List.mem_reverse.mpr hy)
    rw [← List.takeWhile_append_dropWhile (p := p) (l := l)] at hx
    rcases List.mem_append.mp hx with hx | hx
    · exact List.mem_takeWhile_imp hx
    · exact h2 x hx
  · intro h
    rw [dropEnds, List.dropWhile_eq_nil_iff.mpr h]
    simp

theorem pyStripWs_eq_nil_iff {l : List Char} : pyStripWs l = [] ↔ l.all pyIsSpace := by
  rw [pyStripWs, dropEnds_eq_nil_iff, List.all_eq_true]

/-! ### Whitespace at the edges of a line does not change the cleaned fields -/

theorem pyIsSpace_ne_comma_quote {c : Char} (h : pyIsSpace c = true) :
    ¬c = ',' ∧ ¬c = '"' := by
  constructor <;> intro hx <;> subst hx <;> exact absurd h (by decide)

theorem pyStripQuotes_eq_self {t : List Char} (h : ∀ x ∈ t, ¬x = '"') :
    pyStripQuotes t = t :=
  dropEnds_eq_self_of_all_neg (fun x hx => by simpa using h x hx)

theorem pyStripWs_cons_space {c : Char} (hc : pyIsSpace c = true) (l : List Char) :
    pyStripWs (c :: l) = pyStripWs l := dropEnds_cons_of_pos hc l

theorem pyStripWs_append_space {c : Char} (hc : pyIsSpace c = true) (l : List Char) :
    pyStripWs (l ++ [c]) = pyStripWs l := dropEnds_append_of_pos hc l

theorem pyStripWs_single_space {c : Char} (hc : pyIsSpace c = true) :
    pyStripWs [c] = [] := by
  rw [show [c] = c :: ([] : List Char) from rfl, pyStripWs_cons_space hc]
  rfl

theorem cleanField_cons_space {c : Char} (hc : pyIsSpace c = true) {t : List Char}
    (ht : ∀ x ∈ t, ¬x = '"') : cleanField (c :: t) = cleanField t := by
  have hc2 := (pyIsSpace_ne_comma_quote hc).2
  rw [cleanField, cleanField, pyStripQuotes_eq_self ht,
    pyStripQuotes_eq_self (fun x hx => by
      rcases List.mem_cons.mp hx with rfl | hx
      · exact hc2
      · exact ht x hx),
    pyStripWs_cons_space hc]

theorem cleanField_append_space {c : Char} (hc : pyIsSpace c = true) {t : List Char}
    (ht : ∀ x ∈ t, ¬x = '"') : cleanField (t ++ [c]) = cleanField t := by
  have hc2 := (pyIsSpace_ne_comma_quote hc).2
  rw [cleanField, cleanField, pyStripQuotes_eq_self ht,
    pyStripQuotes_eq_self (fun x hx => by
      rcases List.mem_append.mp hx with hx | hx
      · exact ht x hx
      · simp only [List.mem_singleton] at hx
        subst hx
        exact hc2),
    pyStripWs_append_space hc]

theorem cleanCons_congr {tok tok2 : List Char} {R R2 : List (List Char)}
    (hws : pyStripWs tok = pyStripWs tok2) (hcf : cleanField tok = cleanField tok2)
    (hR : (R.filter (fun t => !(pyStripWs t).isEmpty)).map cleanField =
      (R2.filter (fun t => !(pyStripWs t).isEmpty)).map cleanField) :
    ((tok :: R).filter (fun t => !(pyStripWs t).isEmpty)).map cleanField =
      ((tok2 :: R2).filter (fun t => !(pyStripWs t).isEmpty)).map cleanField := by
  simp only [List.filter_cons, hws]
  by_cases hk : (!(pyStripWs tok2).isEmpty) = true
  · rw [if_pos hk, if_pos hk, List.map_cons, List.map_cons, hcf, hR]
  · rw [if_neg hk, if_neg hk]
    exact hR

theorem cleanCons_drop {tok : List Char} (h : pyStripWs tok = []) (R : List (List Char)) :
    ((tok :: R).filter (fun t => !(pyStripWs t).isEmpty)).map cleanField =
      (R.filter (fun t => !(pyStripWs t).isEmpty)).map cleanField := by
  simp [List.filter_cons, h]

theorem cleanedFields_comma (cs : List Char) : cleanedFields (',' :: cs) = cleanedFields cs := by
  rw [cleanedFields, cleanedFields, findTokens_comma]

theorem cleanedFields_cons_space {c : Char} (hc : pyIsSpace c = true) (l : List Char) :
    cleanedFields (c :: l) = cleanedFields l := by
  obtain ⟨hc1, hc2⟩ := pyIsSpace_ne_comma_quote hc
  cases l with
  | nil =>
    rw [cleanedFields, cleanedFields, findTokens_plain [] hc1 hc2]
    show ((([c] : List Char) :: findTokens []).filter _).map _ = _
    rw [cleanCons_drop (pyStripWs_single_space hc)]
  | cons d ds =>
    by_cases hd : d = ',' ∨ d = '"'
    · have ht : takePlain (d :: ds) = ([], d :: ds) := by
        rw [takePlain, if_pos hd]
      rw [cleanedFields, cleanedFields, findTokens_plain (d :: ds) hc1 hc2, ht]
      exact cleanCons_drop (pyStripWs_single_space hc) _
    · push_neg at hd
      have ht : takePlain (d :: ds) = (d :: (takePlain ds).1, (takePlain ds).2) := by
        rw [takePlain, if_neg (by tauto)]
      rw [cleanedFields, cleanedFields, findTokens_plain (d :: ds) hc1 hc2, ht,
        findTokens_plain ds hd.1 hd.2]
      have hnoq : ∀ x ∈ d :: (takePlain ds).1, ¬x = '"' := by
        intro x hx
        rcases List.mem_cons.mp hx with rfl | hx
        · exact hd.2
        · exact (takePlain_mem_fst hx).2
      exact cleanCons_congr (pyStripWs_cons_space hc _) (cleanField_cons_space hc hnoq) rfl

theorem cleanedFields_append_space_fuel {c : Char} (hc : pyIsSpace c = true) :
    ∀ (n : Nat) (l : List Char), l.length ≤ n → cleanedFields (l ++ [c]) = cleanedFields l := by
  obtain ⟨hc1, hc2⟩ := pyIsSpace_ne_comma_quote hc
  intro n
  induction n with
  | zero =>
    intro l hl
    have hnil : l = [] := List.length_eq_zero.mp (Nat.le_zero.mp hl)
    subst hnil
    rw [List.nil_append, cleanedFields, cleanedFields, findTokens_plain [] hc1 hc2]
    show ((([c] : List Char) :: findTokens []).filter _).map _ = _
    rw [cleanCons_drop (pyStripWs_single_space hc)]
  | succ n ih =>
    intro l hl
    cases l with
    | nil =>
      rw [List.nil_append, cleanedFields, cleanedFields, findTokens_plain [] hc1 hc2]
      show ((([c] : List Char) :: findTokens []).filter _).map _ = _
      rw [cleanCons_drop (pyStripWs_single_space hc)]
    | cons d ds =>
      simp only [List.length_cons, Nat.succ_le_succ_iff] at hl
      by_cases hdc : d = ','
      · subst hdc
        rw [List.cons_append, cleanedFields_comma, cleanedFields_comma]
        exact ih ds hl
      · by_cases hdq : d = '"'
        · subst hdq
          rw [List.cons_append, cleanedFields, cleanedFields, findTokens_quote,
            findTokens_quote, breakOnQuote_append_single hc2]
          cases hb : breakOnQuote ds with
          | none =>
            show ((findTokens (ds ++ [c])).filter _).map _ = ((findTokens ds).filter _).map _
            rw [show ((findTokens (ds ++ [c])).filter
                (fun t => !(pyStripWs t).isEmpty)).map cleanField = cleanedFields (ds ++ [c])
              from rfl]
            rw [show ((findTokens ds).filter
                (fun t => !(pyStripWs t).isEmpty)).map cleanField = cleanedFields ds from rfl]
            exact ih ds hl
          | some p =>
            have hlen : p.2.length ≤ n := by
              have := breakOnQuote_snd_length hb
              omega
            refine cleanCons_congr rfl rfl ?_
            rw [show ((findTokens (p.2 ++ [c])).filter
                (fun t => !(pyStripWs t).isEmpty)).map cleanField = cleanedFields (p.2 ++ [c])
              from rfl]
            rw [show ((findTokens p.2).filter
                (fun t => !(pyStripWs t).isEmpty)).map cleanField = cleanedFields p.2 from rfl]
            exact ih p.2 hlen
        · rw [List.cons_append, cleanedFields, cleanedFields,
            findTokens_plain (ds ++ [c]) hdc hdq, findTokens_plain ds hdc hdq,
            takePlain_append_single (by tauto : ¬(c = ',' ∨ c = '"'))]
          have hnoq : ∀ x ∈ d :: (takePlain ds).1, ¬x = '"' := by
            intro x hx
            rcases List.mem_cons.mp hx with rfl | hx
            · exact hdq
            · exact (takePlain_mem_fst hx).2
          by_cases h2 : (takePlain ds).2 = []
          · rw [if_pos h2, h2]
            refine cleanCons_congr ?_ ?_ rfl
            · rw [show d :: ((takePlain ds).1 ++ [c]) = (d :: (takePlain ds).1) ++ [c] from rfl]
              exact pyStripWs_append_space hc _
            · rw [show d :: ((takePlain ds).1 ++ [c]) = (d :: (takePlain ds).1) ++ [c] from rfl]
              exact cleanField_append_space hc hnoq
          · rw [if_neg h2]
            refine cleanCons_congr rfl rfl ?_
            have hlen : (takePlain ds).2.length ≤ n := le_trans (takePlain_snd_length ds) hl
            rw [show ((findTokens ((takePlain ds).2 ++ [c])).filter
                (fun t => !(pyStripWs t).isEmpty)).map cleanField =
                cleanedFields ((takePlain ds).2 ++ [c]) from rfl]
            rw [show ((findTokens (takePlain ds).2).filter
                (fun t => !(pyStripWs t).isEmpty)).map cleanField =
                cleanedFields (takePlain ds).2 from rfl]
            exact ih (takePlain ds).2 hlen

theorem cleanedFields_append_space {c : Char} (hc : pyIsSpace c = true) (l : List Char) :
    cleanedFields (l ++ [c]) = cleanedFields l :=
  cleanedFields_append_space_fuel hc l.length l le_rfl

theorem parse_wifi_line_cons_space {c : Char} (hc : pyIsSpace c = true) (l : List Char) :
    parse_wifi_line (c :: l) = parse_wifi_line l := by
  rw [parse_wifi_line, parse_wifi_line, cleanedFields_cons_space hc]

theorem parse_wifi_line_append_space {c : Char} (hc : pyIsSpace c = true) (l : List Char) :
    parse_wifi_line (l ++ [c]) = parse_wifi_line l := by
  rw [parse_wifi_line, parse_wifi_line, cleanedFields_append_space hc]

/-! ### Line splitting and the whole-text strip -/

theorem splitNl_ne_nil (l : List Char) : splitNl l ≠ [] := by
  induction l with
  | nil => simp [splitNl]
  | cons c cs ih =>
    rw [splitNl]
    cases h : splitNl cs with
    | nil => exact absurd h ih
    | cons t ts => by_cases hc : c = '\n' <;> simp [hc]

theorem splitNl_cons_newline (cs : List Char) : splitNl ('\n' :: cs) = [] :: splitNl cs := by
  rw [splitNl]
  cases h : splitNl cs with
  | nil => exact absurd h (splitNl_ne_nil cs)
  | cons t ts =>
    show (if ('\n' : Char) = '\n' then [] :: t :: ts else ('\n' :: t) :: ts) = [] :: t :: ts
    rw [if_pos rfl]

theorem splitNl_cons_other {c : Char} (hc : ¬c = '\n') (cs : List Char) :
    ∃ t ts, splitNl cs = t :: ts ∧ splitNl (c :: cs) = (c :: t) :: ts := by
  cases h : splitNl cs with
  | nil => exact absurd h (splitNl_ne_nil cs)
  | cons t ts =>
    refine ⟨t, ts, rfl, ?_⟩
    rw [splitNl, h]
    show (if c = '\n' then [] :: t :: ts else (c :: t) :: ts) = (c :: t) :: ts
    rw [if_neg hc]

theorem splitNl_append_newline (l : List Char) : splitNl (l ++ ['\n']) = splitNl l ++ [[]] := by
  induction l with
  | nil => simp [splitNl]
  | cons c cs ih =>
    by_cases hc : c = '\n'
    · subst hc
      rw [List.cons_append, splitNl_cons_newline, splitNl_cons_newline, ih, List.cons_append]
    · obtain ⟨t, ts, h1, h2⟩ := splitNl_cons_other hc cs
      obtain ⟨t2, ts2, h3, h4⟩ := splitNl_cons_other hc (cs ++ ['\n'])
      rw [List.cons_append, h4, h2]
      rw [ih, h1, List.cons_append] at h3
      injection h3 with h3a h3b
      subst h3a
      subst h3b
      rw [List.cons_append]

theorem splitNl_append_other {c : Char} (hc : ¬c = '\n') (l : List Char) :
    ∃ A t, splitNl l = A ++ [t] ∧ splitNl (l ++ [c]) = A ++ [t ++ [c]] := by
  induction l with
  | nil => exact ⟨[], [], by simp [splitNl], by simp [splitNl, hc]⟩
  | cons d ds ih =>
    obtain ⟨A, t, h1, h2⟩ := ih
    by_cases hd : d = '\n'
    · subst hd
      rw [List.cons_append, splitNl_cons_newline, splitNl_cons_newline, h1, h2]
      exact ⟨[] :: A, t, rfl, rfl⟩
    · obtain ⟨u, us, h3, h4⟩ := splitNl_cons_other hd ds
      obtain ⟨v, vs, h5, h6⟩ := splitNl_cons_other hd (ds ++ [c])
      rw [h1] at h3
      rw [h2] at h5
      rw [List.cons_append, h6, h4]
      cases A with
      | nil =>
        rw [List.nil_append] at h3 h5
        injection h3 with h3a h3b
        injection h5 with h5a h5b
        subst h3a
        subst h3b
        subst h5a
        subst h5b
        exact ⟨[], d :: t, rfl, rfl⟩
      | cons a as =>
        rw [List.cons_append] at h3 h5
        injection h3 with h3a h3b
        injection h5 with h5a h5b
        subst h3a
        subst h3b
        subst h5a
        subst h5b
        exact ⟨(d :: a) :: as, t, rfl, rfl⟩

theorem parseLines_cons_congr {a b : List Char} (hab : parse_wifi_line a = parse_wifi_line b)
    (L : List (List Char)) : parseLines (a :: L) = parseLines (b :: L) := by
  simp only [parseLines, hab]

theorem parseLines_append (A B : List (List Char)) :
    parseLines (A ++ B) =
      match parseLines A, parseLines B with
      | .ok ra, .ok rb => .ok (ra ++ rb)
      | .error e, _ => .error e
      | .ok _, .error e => .error e := by
  induction A with
  | nil =>
    rw [List.nil_append]
    cases parseLines B <;> rfl
  | cons a A ih =>
    rw [List.cons_append, parseLines, parseLines, ih]
    cases parse_wifi_line a with
    | error e => rfl
    | ok r =>
      cases parseLines A with
      | error e => rfl
      | ok ra => cases parseLines B <;> rfl

theorem content_strip_left (s : List Char) :
    parseLines ((splitNl (s.dropWhile pyIsSpace)).filter (fun l => !(pyStripWs l).isEmpty)) =
      parseLines ((splitNl s).filter (fun l => !(pyStripWs l).isEmpty)) := by
  induction s with
  | nil => rfl
  | cons c cs ih =>
    by_cases hsp : pyIsSpace c = true
    · rw [List.dropWhile_cons_of_pos hsp, ih]
      by_cases hc : c = '\n'
      · subst hc
        rw [splitNl_cons_newline, List.filter_cons]
        rw [if_neg (by decide)]
      · obtain ⟨t, ts, h1, h2⟩ := splitNl_cons_other hc cs
        rw [h2, h1, List.filter_cons, List.filter_cons, pyStripWs_cons_space hsp]
        by_cases hk : (!(pyStripWs t).isEmpty) = true
        · rw [if_pos hk, if_pos hk]
          exact parseLines_cons_congr (parse_wifi_line_cons_space hsp t).symm _
        · rw [if_neg hk, if_neg hk]
    · rw [List.dropWhile_cons_of_neg hsp]

theorem content_strip_right (s : List Char) :
    parseLines ((splitNl ((s.reverse.dropWhile pyIsSpace).reverse)).filter
        (fun l => !(pyStripWs l).isEmpty)) =
      parseLines ((splitNl s).filter (fun l => !(pyStripWs l).isEmpty)) := by
  induction s using List.reverseRecOn with
  | nil => rfl
  | append_singleton l c ih =>
    by_cases hsp : pyIsSpace c = true
    · rw [List.reverse_append, List.reverse_singleton, List.singleton_append,
        List.dropWhile_cons_of_pos hsp]
      rw [show (l.reverse.dropWhile pyIsSpace).reverse =
        ((l ++ []).reverse.dropWhile pyIsSpace).reverse from by simp]
      rw [show ((l ++ []) : List Char) = l from by simp] at *
      rw [ih]
      by_cases hc : c = '\n'
      · subst hc
        rw [splitNl_append_newline, List.filter_append]
        rw [show (List.filter (fun l => !(pyStripWs l).isEmpty) [([] : List Char)]) = []
          from by decide]
        rw [List.append_nil]
      · obtain ⟨A, t, h1, h2⟩ := splitNl_append_other hc l
        rw [h2, h1, List.filter_append, List.filter_append, parseLines_append, parseLines_append]
        have hone : parseLines (List.filter (fun x => !(pyStripWs x).isEmpty) [t ++ [c]]) =
            parseLines (List.filter (fun x => !(pyStripWs x).isEmpty) [t]) := by
          rw [List.filter_cons, List.filter_cons, pyStripWs_append_space hsp]
          by_cases hk : (!(pyStripWs t).isEmpty) = true
          · rw [if_pos hk, if_pos hk]
            exact parseLines_cons_congr (parse_wifi_line_append_space hsp t) _
          · rw [if_neg hk, if_neg hk]
        rw [hone]
    · rw [List.reverse_append, List.reverse_singleton, List.singleton_append,
        List.dropWhile_cons_of_neg hsp]
      simp

theorem parse_wifi_content_eq_nonblank (content : List Char) :
    parse_wifi_content content = parseLines (nonblankLines content) := by
  rw [parse_wifi_content, nonblankLines, nonblankLines]
  rw [show pyStripWs content =
    ((content.dropWhile pyIsSpace).reverse.dropWhile pyIsSpace).reverse from rfl]
  rw [content_strip_right, content_strip_left]

/-! ### Facts about the parsing loop -/

theorem parseLines_ok_length {L : List (List Char)} {R : List WiFiNetworkRecord}
    (h : parseLines L = .ok R) : R.length = L.length := by
  induction L generalizing R with
  | nil =>
    rw [parseLines] at h
    cases h
    rfl
  | cons a A ih =>
    rw [parseLines] at h
    cases hp : parse_wifi_line a with
    | error e => rw [hp] at h; cases h
    | ok r =>
      rw [hp] at h
      cases hq : parseLines A with
      | error e => rw [hq] at h; cases h
      | ok rs =>
        rw [hq] at h
        cases h
        simp [ih hq]

theorem parseLines_ok_get {L : List (List Char)} {R : List WiFiNetworkRecord}
    (h : parseLines L = .ok R) :
    ∀ (i : Nat) (a : List Char) (b : WiFiNetworkRecord),
      L[i]? = some a → R[i]? = some b → parse_wifi_line a = .ok b := by
  induction L generalizing R with
  | nil => intro i a b ha _; simp at ha
  | cons l A ih =>
    intro i a b ha hb
    rw [parseLines] at h
    cases hp : parse_wifi_line l with
    | error e => rw [hp] at h; cases h
    | ok r =>
      rw [hp] at h
      cases hq : parseLines A with
      | error e => rw [hq] at h; cases h
      | ok rs =>
        rw [hq] at h
        cases h
        cases i with
        | zero =>
          simp only [List.getElem?_cons_zero, Option.some.injEq] at ha hb
          rw [← ha, ← hb]
          exact hp
        | succ j =>
          simp only [List.getElem?_cons_succ] at ha hb
          exact ih hq j a b ha hb

theorem parseLines_error_of_mem {L : List (List Char)} {l : List Char} (hl : l ∈ L)
    {e : String} (h : parse_wifi_line l = .error e) :
    ∃ e2, parseLines L = .error e2 := by
  induction L with
  | nil => simp at hl
  | cons a A ih =>
    rw [parseLines]
    rcases List.mem_cons.mp hl with rfl | hl2
    · rw [h]
      exact ⟨e, rfl⟩
    · cases hp : parse_wifi_line a with
      | error e3 => exact ⟨e3, rfl⟩
      | ok r =>
        obtain ⟨e2, he2⟩ := ih hl2
        rw [he2]
        exact ⟨e2, rfl⟩

/-! ### Facts about the positional field mapping -/

theorem parse_fields_ok {fs : List (List Char)} {r : WiFiNetworkRecord}
    (h : parse_fields fs = .ok r) :
    r.bss = strFieldD fs 0 "" ∧ r.tsf = strFieldD fs 1 "" ∧
      numFieldD fs 2 pyFloat (DecFloat.ofInt 0) = .ok r.freq ∧
      numFieldD fs 3 pyInt 0 = .ok r.beacon ∧
      r.capa = strFieldD fs 4 "0x0" ∧
      numFieldD fs 5 pyFloat (DecFloat.ofInt 0) = .ok r.signal ∧
      r.ssid = strFieldD fs 6 "" ∧ r.ht_capa = strFieldD fs 7 "0x0" ∧
      numFieldD fs 8 pyInt 0 = .ok r.primary_channel ∧
      r.vht_capa = strFieldD fs 9 "0x0" ∧ r.he_capa = strFieldD fs 10 "0x0" ∧
      r.he_phy_capa = strFieldD fs 11 "" ∧ r.encryption = strFieldD fs 12 "" ∧
      r.cipher = strFieldD fs 13 "" ∧ r.suite = strFieldD fs 14 "" := by
  rw [parse_fields] at h
  cases h2 : numFieldD fs 2 pyFloat (DecFloat.ofInt 0) with
  | error e => rw [h2] at h; cases h
  | ok fq =>
    rw [h2] at h
    cases h3 : numFieldD fs 3 pyInt 0 with
    | error e => rw [h3] at h; cases h
    | ok bc =>
      rw [h3] at h
      cases h5 : numFieldD fs 5 pyFloat (DecFloat.ofInt 0) with
      | error e => rw [h5] at h; cases h
      | ok sg =>
        rw [h5] at h
        cases h8 : numFieldD fs 8 pyInt 0 with
        | error e => rw [h8] at h; cases h
        | ok pc =>
          rw [h8] at h
          cases h
          exact ⟨rfl, rfl, rfl, rfl, rfl, rfl, rfl, rfl, rfl, rfl, rfl, rfl, rfl, rfl, rfl⟩

theorem numFieldD_absent {α : Type} {fs : List (List Char)} {i : Nat}
    (p : List Char → Except String α) (d : α) (h : fs.length ≤ i) :
    numFieldD fs i p d = .ok d := by
  rw [numFieldD, List.getElem?_eq_none h]

theorem strFieldD_absent {fs : List (List Char)} {i : Nat} (d : String) (h : fs.length ≤ i) :
    strFieldD fs i d = d := by
  rw [strFieldD, List.getElem?_eq_none h]

theorem numFieldD_present_empty {α : Type} {fs : List (List Char)} {i : Nat}
    (p : List Char → Except String α) (d : α) (h : fs[i]? = some []) :
    numFieldD fs i p d = .ok d := by
  rw [numFieldD, h]
  rfl

theorem numFieldD_present_nonempty {α : Type} {fs : List (List Char)} {i : Nat}
    {f : List Char} (p : List Char → Except String α) (d : α) (h : fs[i]? = some f)
    (hne : ¬f = []) : numFieldD fs i p d = p f := by
  rw [numFieldD, h]
  show (if f.isEmpty = true then Except.ok d else p f) = p f
  rw [if_neg (fun hx => hne (List.isEmpty_iff.mp hx))]

/-! ### No double quote survives into a field value -/

theorem pyStripQuotes_quoted {s : List Char} (hs : ∀ x ∈ s, ¬x = '"') :
    pyStripQuotes ('"' :: s ++ ['"']) = s := by
  rw [pyStripQuotes, dropEnds, List.cons_append]
  rw [List.dropWhile_cons_of_pos (p := fun c => c == '"') (by decide)]
  cases s with
  | nil => decide
  | cons y ys =>
    have hy : ¬((y == '"') = true) := by simpa using hs y (by simp)
    rw [List.cons_append, List.dropWhile_cons_of_neg (p := fun c => c == '"') hy,
      ← List.cons_append]
    rw [show ((y :: ys) ++ ['"'] : List Char).reverse = '"' :: (y :: ys).reverse from by simp]
    rw [List.dropWhile_cons_of_pos (p := fun c => c == '"') (by decide)]
    rw [dropWhile_eq_self_of_all_neg (fun x hx => by
      simpa using hs x (List.mem_reverse.mp hx))]
    rw [List.reverse_reverse]

theorem findTokens_token_shape :
    ∀ (n : Nat) (l : List Char), l.length ≤ n → ∀ t ∈ findTokens l,
      (∀ x ∈ t, ¬x = '"') ∨ (∃ s, t = '"' :: s ++ ['"'] ∧ ∀ x ∈ s, ¬x = '"') := by
  intro n
  induction n with
  | zero =>
    intro l hl
    have hnil : l = [] := List.length_eq_zero.mp (Nat.le_zero.mp hl)
    subst hnil
    intro t ht
    rw [findTokens_nil] at ht
    simp at ht
  | succ n ih =>
    intro l hl
    cases l with
    | nil =>
      intro t ht
      rw [findTokens_nil] at ht
      simp at ht
    | cons c cs =>
      simp only [List.length_cons, Nat.succ_le_succ_iff] at hl
      by_cases hcomma : c = ','
      · subst hcomma
        rw [findTokens_comma]
        exact ih cs hl
      · by_cases hquote : c = '"'
        · subst hquote
          rw [findTokens_quote]
          cases hb : breakOnQuote cs with
          | none => exact ih cs hl
          | some p =>
            intro t ht
            rcases List.mem_cons.mp ht with rfl | ht2
            · exact Or.inr ⟨p.1, rfl, fun x hx => by
                have := (breakOnQuote_some_spec hb).2
                intro hxq
                subst hxq
                exact this hx⟩
            · have hlen : p.2.length ≤ n := by
                have := breakOnQuote_snd_length hb
                omega
              exact ih p.2 hlen t ht2
        · rw [findTokens_plain cs hcomma hquote]
          intro t ht
          rcases List.mem_cons.mp ht with rfl | ht2
          · refine Or.inl (fun x hx => ?_)
            rcases List.mem_cons.mp hx with rfl | hx2
            · exact hquote
            · exact (takePlain_mem_fst hx2).2
          · exact ih (takePlain cs).2 (le_trans (takePlain_snd_length cs) hl) t ht2

theorem cleanField_no_quote {t : List Char}
    (h : (∀ x ∈ t, ¬x = '"') ∨ (∃ s, t = '"' :: s ++ ['"'] ∧ ∀ x ∈ s, ¬x = '"')) :
    ∀ x ∈ cleanField t, ¬x = '"' := by
  intro x hx
  rcases h with h | ⟨s, rfl, hs⟩
  · rw [cleanField, pyStripQuotes_eq_self h] at hx
    exact h x (mem_dropEnds hx)
  · rw [cleanField, pyStripQuotes_quoted hs] at hx
    exact hs x (mem_dropEnds hx)

theorem strFieldD_no_quote {line : List Char} {i : Nat} {d : String}
    (hd : '"' ∉ d.data) : '"' ∉ (strFieldD (cleanedFields line) i d).data := by
  rw [strFieldD]
  cases hf : (cleanedFields line)[i]? with
  | none => exact hd
  | some f =>
    have hmem : f ∈ cleanedFields line := List.getElem?_mem hf
    rw [cleanedFields] at hmem
    obtain ⟨tok, htok, rfl⟩ := List.mem_map.mp hmem
    have htok2 : tok ∈ findTokens line := List.mem_of_mem_filter htok
    have hshape := findTokens_token_shape line.length line le_rfl tok htok2
    intro hx
    exact cleanField_no_quote hshape '"' hx rfl

/-! ### Plain comma-free tokens -/

theorem findTokens_plain_all {b : List Char} (hb : ∀ x ∈ b, ¬x = ',' ∧ ¬x = '"')
    (hne : ¬b = []) : findTokens b = [b] := by
  cases b with
  | nil => simp at hne
  | cons c cs =>
    rw [findTokens_plain cs (hb c (by simp)).1 (hb c (by simp)).2,
      takePlain_eq_of_plain (fun x hx => hb x (by simp [hx]))]
    show (c :: cs) :: findTokens [] = [c :: cs]
    rw [findTokens_nil]

theorem findTokens_plain_append_comma {a : List Char} (ha : ∀ x ∈ a, ¬x = ',' ∧ ¬x = '"')
    (hne : ¬a = []) (r : List Char) :
    findTokens (a ++ ',' :: r) = a :: findTokens r := by
  cases a with
  | nil => simp at hne
  | cons c cs =>
    rw [List.cons_append, findTokens_plain _ (ha c (by simp)).1 (ha c (by simp)).2,
      takePlain_plain_append ',' r (fun x hx => ha x (by simp [hx])) (Or.inl rfl)]
    show (c :: cs) :: findTokens (',' :: r) = (c :: cs) :: findTokens r
    rw [findTokens_comma]

theorem keep_of_ne_nil {l : List Char} (h : ¬pyStripWs l = []) :
    (!(pyStripWs l).isEmpty) = true := by
  cases hE : (pyStripWs l).isEmpty
  · rfl
  · exact absurd (List.isEmpty_iff.mp hE) h

theorem not_all_space_ne_nil {l : List Char} (h : ¬l.all pyIsSpace = true) : ¬l = [] := by
  intro hnil
  subst hnil
  exact h rfl

theorem strip_ne_nil_of_not_all_space {l : List Char} (h : ¬l.all pyIsSpace = true) :
    ¬pyStripWs l = [] := fun hx => h (pyStripWs_eq_nil_iff.mp hx)

/-! ### The claims -/

/-- C1: whenever `_parse_wifi_line` returns a record, that record has the 15
named attributes, and every position absent from the cleaned token sequence
is filled with its stated default (empty string; `DecFloat.ofInt 0`, the
value of `0.0`, for freq and signal; `0` for beacon and primary_channel;
the literal `"0x0"` for capa, ht_capa, vht_capa, he_capa), never omitted. -/
theorem claim_C1_record_defaults (line : List Char) (r : WiFiNetworkRecord)
    (h : parse_wifi_line line = .ok r) :
    ((cleanedFields line).length ≤ 0 → r.bss = "") ∧
    ((cleanedFields line).length ≤ 1 → r.tsf = "") ∧
    ((cleanedFields line).length ≤ 2 → r.freq = DecFloat.ofInt 0) ∧
    ((cleanedFields line).length ≤ 3 → r.beacon = 0) ∧
    ((cleanedFields line).length ≤ 4 → r.capa = "0x0") ∧
    ((cleanedFields line).length ≤ 5 → r.signal = DecFloat.ofInt 0) ∧
    ((cleanedFields line).length ≤ 6 → r.ssid = "") ∧
    ((cleanedFields line).length ≤ 7 → r.ht_capa = "0x0") ∧
    ((cleanedFields line).length ≤ 8 → r.primary_channel = 0) ∧
    ((cleanedFields line).length ≤ 9 → r.vht_capa = "0x0") ∧
    ((cleanedFields line).length ≤ 10 → r.he_capa = "0x0") ∧
    ((cleanedFields line).length ≤ 11 → r.he_phy_capa = "") ∧
    ((cleanedFields line).length ≤ 12 → r.encryption = "") ∧
    ((cleanedFields line).length ≤ 13 → r.cipher = "") ∧
    ((cleanedFields line).length ≤ 14 → r.suite = "") := by
  rw [parse_wifi_line] at h
  obtain ⟨e0, e1, e2, e3, e4, e5, e6, e7, e8, e9, e10, e11, e12, e13, e14⟩ := parse_fields_ok h
  refine ⟨?_, ?_, ?_, ?_, ?_, ?_, ?_, ?_, ?_, ?_, ?_, ?_, ?_, ?_, ?_⟩ <;> intro hlen
  · rw [e0, strFieldD_absent _ hlen]
  · rw [e1, strFieldD_absent _ hlen]
  · have := (numFieldD_absent pyFloat (DecFloat.ofInt 0) hlen).symm.trans e2
    exact (Except.ok.inj this).symm
  · have := (numFieldD_absent pyInt 0 hlen).symm.trans e3
    exact (Except.ok.inj this).symm
  · rw [e4, strFieldD_absent _ hlen]
  · have := (numFieldD_absent pyFloat (DecFloat.ofInt 0) hlen).symm.trans e5
    exact (Except.ok.inj this).symm
  · rw [e6, strFieldD_absent _ hlen]
  · rw [e7, strFieldD_absent _ hlen]
  · have := (numFieldD_absent pyInt 0 hlen).symm.trans e8
    exact (Except.ok.inj this).symm
  · rw [e9, strFieldD_absent _ hlen]
  · rw [e10, strFieldD_absent _ hlen]
  · rw [e11, strFieldD_absent _ hlen]
  · rw [e12, strFieldD_absent _ hlen]
  · rw [e13, strFieldD_absent _ hlen]
  · rw [e14, strFieldD_absent _ hlen]

/-- Witness for C1 at the empty line, whose cleaned token sequence is empty. -/
theorem claim_C1_record_defaults_witness :
    (⟨"", "", DecFloat.ofInt 0, 0, "0x0", DecFloat.ofInt 0, "", "0x0", 0, "0x0", "0x0",
      "", "", "", ""⟩ : WiFiNetworkRecord).tsf = "" :=
  (claim_C1_record_defaults []
    ⟨"", "", DecFloat.ofInt 0, 0, "0x0", DecFloat.ofInt 0, "", "0x0", 0, "0x0", "0x0",
      "", "", "", ""⟩ (by decide)).2.1 (by decide)

/-- C2: the line `aa:bb:cc:dd:ee:ff,123456` parses to exactly the record
with bss and tsf set and every other field at its default. -/
theorem claim_C2_two_field_line :
    parse_wifi_line ("aa:bb:cc:dd:ee:ff,123456".data) =
      .ok ⟨"aa:bb:cc:dd:ee:ff", "123456", DecFloat.ofInt 0, 0, "0x0", DecFloat.ofInt 0,
        "", "0x0", 0, "0x0", "0x0", "", "", "", ""⟩ := by decide

/-- C3: a double-quoted span is one token even when it contains commas:
the given line parses with ssid exactly `My, Home Network` (quotes removed,
comma preserved) and primary_channel 6. -/
theorem claim_C3_quoted_comma_ssid :
    ∃ r, parse_wifi_line ("aa:bb,ts,2412,100,0x0,-50,\"My, Home Network\",0x0,6".data) =
        .ok r ∧ r.ssid = "My, Home Network" ∧ r.primary_channel = 6 :=
  ⟨⟨"aa:bb", "ts", ⟨2412, 0⟩, 100, "0x0", ⟨-50, 0⟩, "My, Home Network", "0x0", 6,
    "0x0", "0x0", "", "", "", ""⟩, by decide, rfl, rfl⟩

/-- C4: when `_parse_wifi_content` succeeds it returns exactly one record
per non-blank line of the original text, in the original relative order;
in particular the result length equals the count of non-blank lines. -/
theorem claim_C4_per_line_order (content : List Char) (recs : List WiFiNetworkRecord)
    (h : parse_wifi_content content = .ok recs) :
    recs.length = (nonblankLines content).length ∧
    ∀ (i : Nat) (line : List Char) (r : WiFiNetworkRecord),
      (nonblankLines content)[i]? = some line → recs[i]? = some r →
      parse_wifi_line line = .ok r := by
  rw [parse_wifi_content_eq_nonblank] at h
  exact ⟨parseLines_ok_length h, fun i a b ha hb => parseLines_ok_get h i a b ha hb⟩

/-- Witness for C4 on a three-line text with a whitespace-only middle line. -/
theorem claim_C4_per_line_order_witness :
    ([⟨"a", "", DecFloat.ofInt 0, 0, "0x0", DecFloat.ofInt 0, "", "0x0", 0, "0x0", "0x0",
        "", "", "", ""⟩,
      ⟨"b", "", DecFloat.ofInt 0, 0, "0x0", DecFloat.ofInt 0, "", "0x0", 0, "0x0", "0x0",
        "", "", "", ""⟩] : List WiFiNetworkRecord).length =
      (nonblankLines ("a\n \nb".data)).length :=
  (claim_C4_per_line_order ("a\n \nb".data) _ (by decide)).1

/-- C5 counterexample: the quoted empty field `""` is NOT dropped from the
cleaned token sequence — it passes the `field.strip()` guard (its raw text
is the two quote characters) and occupies its positional slot as an
empty-string field, so later fields are not shifted: `a,"",5,7` keeps
tsf = `""`, freq = 5.0, beacon = 7, and differs from parsing `a,5,7`. -/
theorem claim_C5_counterexample :
    cleanedFields ("a,\"\",5,7".data) = [['a'], [], ['5'], ['7']] ∧
    parse_wifi_line ("a,\"\",5,7".data) =
      .ok ⟨"a", "", ⟨5, 0⟩, 7, "0x0", DecFloat.ofInt 0, "", "0x0", 0, "0x0", "0x0",
        "", "", "", ""⟩ ∧
    ¬parse_wifi_line ("a,\"\",5,7".data) = parse_wifi_line ("a,5,7".data) :=
  ⟨by decide, by decide, by decide⟩

/-- C5 amended: only tokens that are whitespace-only BEFORE quote stripping
(unquoted whitespace runs) are dropped from the cleaned sequence — and
those do shift later positions.  A quoted field that becomes empty after
quote stripping, such as `""`, survives as an empty-string field in its
positional slot and shifts nothing. -/
theorem claim_C5_amended (a b : List Char)
    (ha : ∀ x ∈ a, ¬x = ',' ∧ ¬x = '"') (hb : ∀ x ∈ b, ¬x = ',' ∧ ¬x = '"')
    (hsa : ¬a.all pyIsSpace = true) (hsb : ¬b.all pyIsSpace = true) :
    cleanedFields (a ++ ',' :: '"' :: '"' :: ',' :: b) = [cleanField a, [], cleanField b] ∧
    cleanedFields (a ++ ',' :: ' ' :: ',' :: b) = [cleanField a, cleanField b] := by
  have hanil := not_all_space_ne_nil hsa
  have hbnil := not_all_space_ne_nil hsb
  have hka := keep_of_ne_nil (strip_ne_nil_of_not_all_space hsa)
  have hkb := keep_of_ne_nil (strip_ne_nil_of_not_all_space hsb)
  constructor
  · have ht : findTokens (a ++ ',' :: '"' :: '"' :: ',' :: b) = a :: ['"', '"'] :: [b] := by
      rw [findTokens_plain_append_comma ha hanil, findTokens_quote]
      rw [show breakOnQuote ('"' :: ',' :: b) = some ([], ',' :: b) from by
        rw [breakOnQuote, if_pos rfl]]
      show a :: (('"' :: [] ++ ['"']) :: findTokens (',' :: b)) = _
      rw [findTokens_comma, findTokens_plain_all hb hbnil]
      rfl
    rw [cleanedFields, ht]
    rw [List.filter_cons, if_pos hka, List.filter_cons, if_pos (by decide), List.filter_cons,
      if_pos hkb, List.filter_nil]
    rw [List.map_cons, List.map_cons, List.map_cons, List.map_nil]
    rw [show cleanField ['"', '"'] = [] from by decide]
  · have ht : findTokens (a ++ ',' :: ' ' :: ',' :: b) = a :: [' '] :: [b] := by
      rw [findTokens_plain_append_comma ha hanil,
        findTokens_plain (',' :: b) (by decide) (by decide)]
      rw [show takePlain (',' :: b) = ([], ',' :: b) from by
        rw [takePlain, if_pos (Or.inl rfl)]]
      show a :: ((' ' :: []) :: findTokens (',' :: b)) = _
      rw [findTokens_comma, findTokens_plain_all hb hbnil]
    rw [cleanedFields, ht]
    rw [List.filter_cons, if_pos hka, List.filter_cons, if_neg (by decide), List.filter_cons,
      if_pos hkb, List.filter_nil]
    rw [List.map_cons, List.map_cons, List.map_nil]

/-- Witness for the amended C5 on concrete one-character fields. -/
theorem claim_C5_amended_witness :
    cleanedFields (['x'] ++ ',' :: '"' :: '"' :: ',' :: ['y']) = [['x'], [], ['y']] ∧
    cleanedFields (['x'] ++ ',' :: ' ' :: ',' :: ['y']) = [['x'], ['y']] := by
  have h := claim_C5_amended ['x'] ['y'] (by decide) (by decide) (by decide) (by decide)
  rw [show cleanField ['x'] = ['x'] from by decide,
    show cleanField ['y'] = ['y'] from by decide] at h
  exact h

/-- C6: a numeric position that is present but empty yields its default; a
present nonempty token is handed to the numeric conversion; a conversion
failure on any parsed non-blank line makes `_parse_wifi_content` fail as a
whole (no record list is returned), and the handler turns that failure
into a 500 response. -/
theorem claim_C6_numeric_coercion_abort :
    (∀ (fs : List (List Char)) (i : Nat), fs[i]? = some [] →
      numFieldD fs i pyFloat (DecFloat.ofInt 0) = .ok (DecFloat.ofInt 0) ∧
      numFieldD fs i pyInt 0 = .ok 0) ∧
    (∀ (fs : List (List Char)) (i : Nat) (f : List Char), fs[i]? = some f → ¬f = [] →
      numFieldD fs i pyFloat (DecFloat.ofInt 0) = pyFloat f ∧
      numFieldD fs i pyInt 0 = pyInt f) ∧
    (∀ (content line : List Char) (e : String),
      line ∈ nonblankLines (pyStripWs content) → parse_wifi_line line = .error e →
      (∃ e2, parse_wifi_content content = .error e2) ∧
      ∀ recs, ¬parse_wifi_content content = .ok recs) ∧
    (∀ (content e : String), parse_wifi_content content.data = .error e →
      (do_GET (.ok content) "/air").status = 500) := by
  refine ⟨?_, ?_, ?_, ?_⟩
  · intro fs i h
    exact ⟨numFieldD_present_empty _ _ h, numFieldD_present_empty _ _ h⟩
  · intro fs i f h hne
    exact ⟨numFieldD_present_nonempty _ _ h hne, numFieldD_present_nonempty _ _ h hne⟩
  · intro content line e hmem he
    obtain ⟨e2, he2⟩ := parseLines_error_of_mem hmem he
    have hc : parse_wifi_content content = .error e2 := he2
    refine ⟨⟨e2, hc⟩, ?_⟩
    intro recs hok
    rw [hc] at hok
    cases hok
  · intro content e h
    rw [do_GET, if_pos rfl, serve_wifi_data]
    rw [show fetch_and_parse (.ok content) = parse_wifi_content content.data from rfl, h]
    rfl

/-- Witness for C6: empty-token default, nonempty-token conversion, and the
end-to-end 500 on the malformed line `q,w,zz`. -/
theorem claim_C6_numeric_coercion_abort_witness :
    (numFieldD [['a'], []] 1 pyFloat (DecFloat.ofInt 0) = .ok (DecFloat.ofInt 0) ∧
      numFieldD [['a'], []] 1 pyInt 0 = .ok 0) ∧
    (numFieldD [['5']] 0 pyFloat (DecFloat.ofInt 0) = pyFloat ['5'] ∧
      numFieldD [['5']] 0 pyInt 0 = pyInt ['5']) ∧
    (∃ e2, parse_wifi_content ("q,w,zz".data) = .error e2) ∧
    (do_GET (.ok "q,w,zz") "/air").status = 500 :=
  ⟨claim_C6_numeric_coercion_abort.1 [['a'], []] 1 (by decide),
   claim_C6_numeric_coercion_abort.2.1 [['5']] 0 ['5'] (by decide) (by decide),
   (claim_C6_numeric_coercion_abort.2.2.1 ("q,w,zz".data) ("q,w,zz".data)
     "could not convert string to float: 'zz'" (by decide) (by decide)).1,
   claim_C6_numeric_coercion_abort.2.2.2 "q,w,zz"
     "could not convert string to float: 'zz'" (by decide)⟩

/-- C7: a GET whose path is exactly `/air`, with a successful fetch and
parse, yields a 200 response with the JSON content type, the wildcard CORS
header, and the 2-space-indented JSON array body; any other path yields
the exact Spanish plain-text 404. -/
theorem claim_C7_routing_and_success :
    (∀ (fetched : String) (recs : List WiFiNetworkRecord),
      parse_wifi_content fetched.data = .ok recs →
      do_GET (.ok fetched) "/air" =
        { status := 200,
          headers := [("Content-Type", "application/json; charset=utf-8"),
            ("Access-Control-Allow-Origin", "*")],
          body := jsonDumpsIndent2 recs }) ∧
    (∀ (fetchResult : Except String String) (path : String), ¬path = "/air" →
      do_GET fetchResult path =
        { status := 404,
          headers := [("Content-Type", "text/plain; charset=utf-8")],
          body := "Ruta no encontrada. Use /air para obtener datos Wi-Fi." }) := by
  constructor
  · intro fetched recs h
    rw [do_GET, if_pos rfl, serve_wifi_data]
    rw [show fetch_and_parse (.ok fetched) = parse_wifi_content fetched.data from rfl, h]
  · intro fetchResult path hp
    rw [do_GET, if_neg hp]
    rfl

/-- Witness for C7: the empty upstream text parses to the empty array, and
the path `/foo` is not found. -/
theorem claim_C7_routing_and_success_witness :
    do_GET (.ok "") "/air" =
      { status := 200,
        headers := [("Content-Type", "application/json; charset=utf-8"),
          ("Access-Control-Allow-Origin", "*")],
        body := jsonDumpsIndent2 [] } ∧
    do_GET (.error "down") "/foo" =
      { status := 404,
        headers := [("Content-Type", "text/plain; charset=utf-8")],
        body := "Ruta no encontrada. Use /air para obtener datos Wi-Fi." } :=
  ⟨claim_C7_routing_and_success.1 "" [] (by decide),
   claim_C7_routing_and_success.2 (.error "down") "/foo" (by decide)⟩

/-- C8: every fetch or parse failure on GET `/air` is converted into a
single 500 response whose body is the compact JSON object
`{"error": "Error procesando datos: <description>"}`. -/
theorem claim_C8_error_response (fetchResult : Except String String) (e : String)
    (h : fetch_and_parse fetchResult = .error e) :
    do_GET fetchResult "/air" =
      { status := 500,
        headers := [("Content-Type", "application/json; charset=utf-8")],
        body := "\x7b\"error\": " ++ jsonQuote ("Error procesando datos: " ++ e) ++ "\x7d" } := by
  rw [do_GET, if_pos rfl, serve_wifi_data, h]
  rfl

/-- Witness for C8 at a concrete fetch failure. -/
theorem claim_C8_error_response_witness :
    do_GET (.error "boom") "/air" =
      { status := 500,
        headers := [("Content-Type", "application/json; charset=utf-8")],
        body := "\x7b\"error\": " ++ jsonQuote ("Error procesando datos: " ++ "boom") ++
          "\x7d" } :=
  claim_C8_error_response (.error "boom") "boom" rfl

/-- C9: the tokenizer cannot distinguish consecutive commas from a single
comma: for comma-free, quote-free, not-whitespace-only `a` and `b`, the
lines `a,,b` and `a,b` parse to the same record. -/
theorem claim_C9_double_comma (a b : List Char)
    (ha : ∀ x ∈ a, ¬x = ',' ∧ ¬x = '"') (hb : ∀ x ∈ b, ¬x = ',' ∧ ¬x = '"')
    (hsa : ¬a.all pyIsSpace = true) (hsb : ¬b.all pyIsSpace = true) :
    parse_wifi_line (a ++ ',' :: ',' :: b) = parse_wifi_line (a ++ ',' :: b) := by
  have hanil := not_all_space_ne_nil hsa
  rw [parse_wifi_line, parse_wifi_line, cleanedFields, cleanedFields,
    findTokens_plain_append_comma ha hanil, findTokens_plain_append_comma ha hanil,
    findTokens_comma]

/-- Witness for C9 at `x,,y` versus `x,y`. -/
theorem claim_C9_double_comma_witness :
    parse_wifi_line (['x'] ++ ',' :: ',' :: ['y']) = parse_wifi_line (['x'] ++ ',' :: ['y']) :=
  claim_C9_double_comma ['x'] ['y'] (by decide) (by decide) (by decide) (by decide)

/-- C10: no field value of a returned record contains a double quote — a
matched quoted span loses its quotes and an unmatched opening quote is
skipped by the tokenizer, acting as a separator for the text after it. -/
theorem claim_C10_no_quote_in_fields :
    (∀ (line : List Char) (r : WiFiNetworkRecord), parse_wifi_line line = .ok r →
      '"' ∉ r.bss.data ∧ '"' ∉ r.tsf.data ∧ '"' ∉ r.capa.data ∧ '"' ∉ r.ssid.data ∧
      '"' ∉ r.ht_capa.data ∧ '"' ∉ r.vht_capa.data ∧ '"' ∉ r.he_capa.data ∧
      '"' ∉ r.he_phy_capa.data ∧ '"' ∉ r.encryption.data ∧ '"' ∉ r.cipher.data ∧
      '"' ∉ r.suite.data) ∧
    (∀ cs : List Char, '"' ∉ cs → findTokens ('"' :: cs) = findTokens cs) := by
  constructor
  · intro line r h
    rw [parse_wifi_line] at h
    obtain ⟨e0, e1, _, _, e4, _, e6, e7, _, e9, e10, e11, e12, e13, e14⟩ := parse_fields_ok h
    refine ⟨?_, ?_, ?_, ?_, ?_, ?_, ?_, ?_, ?_, ?_, ?_⟩
    · rw [e0]; exact strFieldD_no_quote (by decide)
    · rw [e1]; exact strFieldD_no_quote (by decide)
    · rw [e4]; exact strFieldD_no_quote (by decide)
    · rw [e6]; exact strFieldD_no_quote (by decide)
    · rw [e7]; exact strFieldD_no_quote (by decide)
    · rw [e9]; exact strFieldD_no_quote (by decide)
    · rw [e10]; exact strFieldD_no_quote (by decide)
    · rw [e11]; exact strFieldD_no_quote (by decide)
    · rw [e12]; exact strFieldD_no_quote (by decide)
    · rw [e13]; exact strFieldD_no_quote (by decide)
    · rw [e14]; exact strFieldD_no_quote (by decide)
  · intro cs h
    rw [findTokens_quote, breakOnQuote_eq_none_iff.mpr h]

/-- Witness for C10 on the line `a"b`, whose unmatched quote splits the
surrounding field into bss `a` and tsf `b`. -/
theorem claim_C10_no_quote_in_fields_witness :
    ('"' ∉ (⟨"a", "b", DecFloat.ofInt 0, 0, "0x0", DecFloat.ofInt 0, "", "0x0", 0, "0x0",
        "0x0", "", "", "", ""⟩ : WiFiNetworkRecord).bss.data) ∧
    findTokens ('"' :: ['b']) = findTokens ['b'] :=
  ⟨(claim_C10_no_quote_in_fields.1 ("a\"b".data)
      ⟨"a", "b", DecFloat.ofInt 0, 0, "0x0", DecFloat.ofInt 0, "", "0x0", 0, "0x0",
        "0x0", "", "", "", ""⟩ (by decide)).1,
   claim_C10_no_quote_in_fields.2 ['b'] (by decide)⟩

end WifiRelay
